import Mathlib

/-!
Verification development for the debos sandboxed command-execution engine
(`commands.go`): a shallow embedding of the Command configuration, the
argument-vector assembly of `Command.Run`, the resolv.conf guard
(`saveResolvConf` / `restoreResolvConf`), the qemu emulation helper
(`newQemuHelper` / `Setup` / `Cleanup`), and the line-buffered output
capture (`commandWrapper`), together with theorems settling the spec
claims about them.

Filesystem state is modelled as an association list from paths to file
entries; effectful operations whose failure the Go code checks (rename,
write, read, remove, copy) are given explicit fault oracles.  SHA-256 is
modelled by an abstract hash function parameter.  The external process
spawned by `exec.Run` is modelled by an outcome oracle and a trace event;
its own filesystem effects are outside the embedded program.
-/

namespace Debos

/-- A file entry in the modelled filesystem: a regular file with string
content, a symbolic link, or anything else (directory, device, ...). -/
inductive Entry where
  | regular (content : String)
  | symlink (target : String)
  | other
deriving DecidableEq

/-- The modelled filesystem: an association list from absolute paths to
entries. -/
def FSmap : Type := List (String × Entry)

instance : DecidableEq FSmap := by
  unfold FSmap
  infer_instance

/-- Look a path up in the filesystem (models `os.Lstat` existence and
kind inspection). -/
def fsLookup (p : String) (fs : FSmap) : Option Entry :=
  (fs.find? (fun kv => kv.1 = p)).map (fun kv => kv.2)

/-- Remove every entry at a path (models `os.Remove` on success). -/
def fsRemove (p : String) (fs : FSmap) : FSmap :=
  fs.filter (fun kv => kv.1 != p)

/-- Create or overwrite the entry at a path (models a successful
`ioutil.WriteFile` / `CopyFile`). -/
def fsSet (p : String) (e : Entry) (fs : FSmap) : FSmap :=
  (p, e) :: fsRemove p fs

/-- Move the entry at `src` to `dst` (models a successful `os.Rename`);
identity when `src` is absent. -/
def fsRename (src dst : String) (fs : FSmap) : FSmap :=
  match fsLookup src fs with
  | some e => fsSet dst e (fsRemove src fs)
  | none => fs

/-- Fault oracles for the effectful operations whose errors the Go code
checks, keyed by the path the operation acts on. -/
structure Faults where
  renameFails : String → Bool
  writeFails : String → Bool
  readFails : String → Bool
  removeFails : String → Bool
  copyFails : String → Bool

/-- The fault-free world: every filesystem operation succeeds. -/
def noFaults : Faults :=
  ⟨fun _ => false, fun _ => false, fun _ => false, fun _ => false, fun _ => false⟩

/-- Go's `path.Join` as used here: the second component always starts
with a slash and the first (a chroot directory) does not end in one, so
joining is plain concatenation. -/
def joinPath (a b : String) : String := a ++ b

/-- The chroot-entering method (`ChrootEnterMethod` constants in the
source). -/
inductive ChrootEnterMethod where
  | CHROOT_METHOD_NONE
  | CHROOT_METHOD_NSPAWN
  | CHROOT_METHOD_CHROOT
deriving DecidableEq

export ChrootEnterMethod (CHROOT_METHOD_NONE CHROOT_METHOD_NSPAWN CHROOT_METHOD_CHROOT)

/-- The `Command` configuration struct from the source. -/
structure Command where
  Architecture : String := ""
  Dir : String := ""
  Chroot : String := ""
  ChrootMethod : ChrootEnterMethod := CHROOT_METHOD_NONE
  bindMounts : List String := []
  extraEnv : List String := []
deriving DecidableEq

/-- Source `Command.AddEnv`: append a raw KEY=VALUE assignment. -/
def Command.AddEnv (cmd : Command) (env : String) : Command :=
  { cmd with extraEnv := cmd.extraEnv ++ [env] }

/-- Source `Command.AddEnvKey`: append a structured KEY=VALUE assignment. -/
def Command.AddEnvKey (cmd : Command) (key value : String) : Command :=
  { cmd with extraEnv := cmd.extraEnv ++ [key ++ "=" ++ value] }

/-- Source `Command.AddBindMount`: append a bind mount, `source:target`
or plain `source` when the target is empty. -/
def Command.AddBindMount (cmd : Command) (source target : String) : Command :=
  let mount := if target ≠ "" then source ++ ":" ++ target else source
  { cmd with bindMounts := cmd.bindMounts ++ [mount] }

/-- The `qemuHelper` struct from the source. -/
structure qemuHelper where
  qemusrc : String := ""
  qemutarget : String := ""
deriving DecidableEq

/-- The architecture switch of `newQemuHelper`: the qemu source path for
a target architecture given the host architecture (`runtime.GOARCH`).
Returns the empty string when no emulation is needed and `none` for an
architecture outside the enumerated set (the `log.Panicf` default). -/
def qemuSrcFor (arch goarch : String) : Option String :=
  match arch with
  | "armhf" | "armel" | "arm" =>
      some (if goarch ≠ "arm64" ∧ goarch ≠ "arm" then "/usr/bin/qemu-arm-static" else "")
  | "arm64" =>
      some (if goarch ≠ "arm64" then "/usr/bin/qemu-aarch64-static" else "")
  | "mips" =>
      some "/usr/bin/qemu-mips-static"
  | "mipsel" =>
      some (if goarch ≠ "mips64le" ∧ goarch ≠ "mipsle" then "/usr/bin/qemu-mipsel-static" else "")
  | "mips64el" =>
      some (if goarch ≠ "mips64le" then "/usr/bin/qemu-mips64el-static" else "")
  | "riscv64" =>
      some (if goarch ≠ "riscv64" then "/usr/bin/qemu-riscv64-static" else "")
  | "i386" =>
      some (if goarch ≠ "amd64" ∧ goarch ≠ "386" then "/usr/bin/qemu-i386-static" else "")
  | "amd64" =>
      some (if goarch ≠ "amd64" then "/usr/bin/qemu-x86_64-static" else "")
  | _ => none

/-- Source `newQemuHelper`, parameterized by the host architecture.
`none` models the `log.Panicf` process abort on an unknown architecture;
the early return for an unset chroot or architecture yields the empty
helper without consulting the switch. -/
def newQemuHelper (c : Command) (goarch : String) : Option qemuHelper :=
  if c.Chroot = "" ∨ c.Architecture = "" then
    some {}
  else
    match qemuSrcFor c.Architecture goarch with
    | none => none
    | some qemusrc =>
        some { qemusrc := qemusrc,
               qemutarget := if qemusrc ≠ "" then joinPath c.Chroot qemusrc else "" }

/-- The helper's needs-emulation decision: a qemu source path was set. -/
def needsEmulation (q : qemuHelper) : Bool := q.qemusrc != ""

/-- Source `qemuHelper.Setup`: no-op without a qemu source, otherwise
copy the static binary to the target path inside the chroot (content of
the host binary is irrelevant to the claims and modelled as empty). -/
def qemuSetup (q : qemuHelper) (faults : Faults) (fs : FSmap) : FSmap × Option String :=
  if q.qemusrc = "" then (fs, none)
  else if faults.copyFails q.qemutarget then (fs, some "copy failed")
  else (fsSet q.qemutarget (Entry.regular "") fs, none)

/-- Source `qemuHelper.Cleanup`: remove the injected binary (the
`os.Remove` result is discarded by the source). -/
def qemuCleanup (q : qemuHelper) (faults : Faults) (fs : FSmap) : FSmap :=
  if q.qemusrc = "" then fs
  else if faults.removeFails q.qemutarget then fs
  else fsRemove q.qemutarget fs

/-- The generated-marker comment line prepended by `saveResolvConf`. -/
def resolvConfMarker : String := "# Automatically generated by Debos\n"

/-- Result of `saveResolvConf`: the filesystem after the call, the
remembered checksum (Go's `*[sha256.Size]byte`, `none` when nil) and the
error (`none` on success). -/
structure SaveResult where
  fs : FSmap
  sum : Option String
  err : Option String
deriving DecidableEq

/-- Source `Command.saveResolvConf`, over the modelled filesystem with
an abstract hash in place of `sha256.Sum256`.  `hostconf` is the host's
own `/etc/resolv.conf`; the chrooted path is `path.Join(cmd.Chroot,
hostconf)` and the side-car path appends `.debos`. -/
def saveResolvConf (hash : String → String) (faults : Faults)
    (cmd : Command) (fs : FSmap) : SaveResult :=
  let hostconf := "/etc/resolv.conf"
  let chrootedconf := joinPath cmd.Chroot hostconf
  let savedconf := chrootedconf ++ ".debos"
  if cmd.ChrootMethod = CHROOT_METHOD_NONE then
    ⟨fs, none, none⟩
  else
    -- There may not be an existing resolv.conf
    let renamed : Except String FSmap :=
      if (fsLookup chrootedconf fs).isSome then
        if faults.renameFails chrootedconf then Except.error "rename resolv.conf"
        else Except.ok (fsRename chrootedconf savedconf fs)
      else Except.ok fs
    match renamed with
    | Except.error e => ⟨fs, none, some e⟩
    | Except.ok fs1 =>
      if faults.readFails hostconf then ⟨fs1, none, some "read host resolv.conf"⟩
      else
        match fsLookup hostconf fs1 with
        | some (Entry.regular data) =>
            let out := resolvConfMarker ++ data
            let sum := hash out
            if faults.writeFails chrootedconf then ⟨fs1, none, some "write resolv.conf"⟩
            else ⟨fsSet chrootedconf (Entry.regular out) fs1, some sum, none⟩
        | _ => ⟨fs1, none, some "read host resolv.conf"⟩

/-- Result of `restoreResolvConf`: the filesystem after the call, the
warnings logged, and the error (`none` on success). -/
structure RestoreResult where
  fs : FSmap
  warnings : List String
  err : Option String
deriving DecidableEq

/-- Source `Command.restoreResolvConf`.  The early return for method
`none` or a nil checksum precedes the `defer os.Remove(savedconf)`, so
only the remaining paths attempt the side-car removal on exit (that
removal's own error is discarded by `defer`). -/
def restoreResolvConf (hash : String → String) (faults : Faults)
    (cmd : Command) (fs : FSmap) (sum : Option String) : RestoreResult :=
  let hostconf := "/etc/resolv.conf"
  let chrootedconf := joinPath cmd.Chroot hostconf
  let savedconf := chrootedconf ++ ".debos"
  if cmd.ChrootMethod = CHROOT_METHOD_NONE ∨ sum = none then
    ⟨fs, [], none⟩
  else
    -- Remove the original copy anyway (deferred: applied to the body's result)
    let body : RestoreResult :=
      match fsLookup chrootedconf fs with
      | none =>
          -- resolv.conf was removed during the command call
          ⟨fs, [], none⟩
      | some (Entry.regular data) =>
          if faults.readFails chrootedconf then ⟨fs, [], some "read resolv.conf"⟩
          else
            let currentsum := hash data
            -- Leave the changed resolv.conf untouched
            if some currentsum = sum then
              -- Remove the generated version
              if faults.removeFails chrootedconf then ⟨fs, [], some "remove resolv.conf"⟩
              else
                let fs1 := fsRemove chrootedconf fs
                if (fsLookup savedconf fs1).isSome then
                  -- Restore the original version
                  if faults.renameFails savedconf then ⟨fs1, [], some "rename savedconf"⟩
                  else ⟨fsRename savedconf chrootedconf fs1, [], none⟩
                else ⟨fs1, [], none⟩
            else ⟨fs, [], none⟩
      | some (Entry.symlink _) =>
          -- Nothing to do with it -- file has been changed anyway
          ⟨fs, [], none⟩
      | some Entry.other =>
          ⟨fs, ["Warning: /etc/resolv.conf inside the chroot is not a regular file"], none⟩
    ⟨if faults.removeFails savedconf then body.fs else fsRemove savedconf body.fs,
     body.warnings, body.err⟩

/-- Model of `bytes.Buffer.ReadString('\n')`: read up to and including
the first newline.  `some (s, rest)` consumes the newline-terminated
segment `s`; `none` is the `io.EOF` outcome, in which the Go call hands
back the whole remaining buffer content. -/
def readStringNL : List Char → Option (List Char × List Char)
  | [] => none
  | c :: rest =>
      if c = '\n' then some ([c], rest)
      else
        match readStringNL rest with
        | some (s, rest') => some (c :: s, rest')
        | none => none

theorem readStringNL_length {l s rest : List Char}
    (h : readStringNL l = some (s, rest)) : rest.length < l.length := by
  induction l generalizing s rest with
  | nil => simp [readStringNL] at h
  | cons c tl ih =>
    simp only [readStringNL] at h
    by_cases hc : c = '\n'
    · simp [hc] at h
      simp [h.2.symm]
    · simp only [if_neg hc] at h
      cases hr : readStringNL tl with
      | none => rw [hr] at h; exact absurd h (by simp)
      | some pr =>
        rw [hr] at h
        cases pr with
        | mk s' rest' =>
          simp at h
          obtain ⟨h1, h2⟩ := h
          have := ih hr
          subst h2
          simp only [List.length_cons]
          omega

/-- The loop body of `commandWrapper.out`: repeatedly read
newline-terminated segments and emit each as a log line; at the end, a
nonempty newline-less remainder is emitted with a forced newline when
`atEOF` holds and otherwise written back into the buffer.  Returns the
buffer content left behind and the emitted segments in order (each
including its terminating newline, as printed after the `label | `
prefix). -/
def outLoop (atEOF : Bool) (buf : List Char) : List Char × List (List Char) :=
  match h : readStringNL buf with
  | some (s, rest) =>
      let r := outLoop atEOF rest
      (r.1, s :: r.2)
  | none =>
      if 0 < buf.length then
        if atEOF then ([], [buf ++ ['\n']])
        else (buf, [])
      else (buf, [])
termination_by buf.length
decreasing_by exact readStringNL_length h

/-- Source `commandWrapper.Write`: append the incoming bytes to the
buffer, then run `out(false)`. -/
def wrapperWrite (buffer p : List Char) : List Char × List (List Char) :=
  outLoop false (buffer ++ p)

/-- Source `commandWrapper.flush`: run `out(true)`. -/
def wrapperFlush (buffer : List Char) : List Char × List (List Char) :=
  outLoop true buffer

/-- A labeled log line as produced by `log.Printf("%s | %v", label, s)`. -/
def logLine (label : String) (s : List Char) : String :=
  label ++ " | " ++ String.mk s

/-- The argument-vector assembly of `Command.Run` (the `switch
cmd.ChrootMethod` block), with the source's append loops as folds. -/
def assembleOptions (cmd : Command) (cmdline : List String) : List String :=
  match cmd.ChrootMethod with
  | CHROOT_METHOD_NONE => cmdline
  | CHROOT_METHOD_CHROOT =>
      (([] ++ ["chroot"]) ++ [cmd.Chroot]) ++ cmdline
  | CHROOT_METHOD_NSPAWN =>
      let options := ([] : List String) ++ ["systemd-nspawn", "-q"]
      let options := options ++ ["--resolv-conf=off"]
      let options := options ++ ["--timezone=off"]
      let options := options ++ ["--register=no"]
      let options := options ++ ["--keep-unit"]
      let options := options ++ ["--console=pipe"]
      let options := cmd.extraEnv.foldl (fun acc e => acc ++ ["--setenv", e]) options
      let options := cmd.bindMounts.foldl (fun acc b => acc ++ ["--bind", b]) options
      let options := options ++ ["-D", cmd.Chroot]
      options ++ cmdline

/-- Observable events of one `Run` invocation, in order: the service
gate calls, the blocking spawn of the subprocess (with the assembled
argument vector and the explicit environment given to it, `[]` when
`exe.Env` is left nil), the output flush and the qemu cleanup call. -/
inductive Event where
  | denyServices (chroot : String)
  | allowServices (chroot : String)
  | spawn (argv : List String) (env : List String)
  | flushOutput
  | qemuCleanup (target : String)
deriving DecidableEq

/-- The ambient world of one `Run` invocation: the host architecture,
the host environment (`os.Environ()`), the hash modelling SHA-256, the
fault oracles, and the outcome of the spawned process (`none` =
exit 0, `some e` = spawn failure or nonzero exit). -/
structure World where
  goarch : String
  hostEnviron : List String
  hash : String → String
  faults : Faults
  execResult : Option String

/-- Outcome of one `Run` invocation: the filesystem afterwards, the
event trace, and the returned value — `none` models a panic
(`log.Panicf` on an unknown architecture, or indexing `options[0]` on an
empty vector), `some none` a nil error return, `some (some e)` an error
return. -/
structure RunOut where
  fs : FSmap
  events : List Event
  ret : Option (Option String)
deriving DecidableEq

/-- Source `Command.Run` over the modelled world.  Faithful points: the
error of `q.Setup()` is discarded; `options[0]` on an empty vector
panics after only the `q.Cleanup` defer has been armed; `exe.Env` is
extended with `extraEnv` exactly when `extraEnv` is nonempty and the
method is not nspawn; the service gate is bracketed only for methods
other than none; a failing `exe.Run` returns before `restoreResolvConf`
is called; the deferred calls run in LIFO order (`Allow`, flush,
`Cleanup`). -/
def Command.Run (w : World) (fs0 : FSmap) (cmd : Command)
    (_label : String) (cmdline : List String) : RunOut :=
  match newQemuHelper cmd w.goarch with
  | none => { fs := fs0, events := [], ret := none }
  | some q =>
    let setup := qemuSetup q w.faults fs0
    let fs1 := setup.1
    let options := assembleOptions cmd cmdline
    if options = [] then
      { fs := qemuCleanup q w.faults fs1,
        events := [Event.qemuCleanup q.qemutarget],
        ret := none }
    else
      let env :=
        if cmd.extraEnv ≠ [] ∧ cmd.ChrootMethod ≠ CHROOT_METHOD_NSPAWN then
          w.hostEnviron ++ cmd.extraEnv
        else []
      let denyEvents :=
        if cmd.ChrootMethod ≠ CHROOT_METHOD_NONE then [Event.denyServices cmd.Chroot]
        else []
      let teardownEvents :=
        (if cmd.ChrootMethod ≠ CHROOT_METHOD_NONE then [Event.allowServices cmd.Chroot]
         else [])
        ++ [Event.flushOutput, Event.qemuCleanup q.qemutarget]
      let sv := saveResolvConf w.hash w.faults cmd fs1
      match sv.err with
      | some e =>
          { fs := qemuCleanup q w.faults sv.fs,
            events := denyEvents ++ teardownEvents,
            ret := some (some e) }
      | none =>
        match w.execResult with
        | some e =>
            { fs := qemuCleanup q w.faults sv.fs,
              events := denyEvents ++ [Event.spawn options env] ++ teardownEvents,
              ret := some (some e) }
        | none =>
            let rr := restoreResolvConf w.hash w.faults cmd sv.fs sv.sum
            { fs := qemuCleanup q w.faults rr.fs,
              events := denyEvents ++ [Event.spawn options env] ++ teardownEvents,
              ret := some rr.err }

/-! Spec-side definitions, written from the specification's words, to be
compared with the definitions embedded from the source. -/

/-- The enumerated set of supported target architectures (spec §4.5). -/
def supportedArchitectures : List String :=
  ["armhf", "armel", "arm", "arm64", "mips", "mipsel", "mips64el", "riscv64", "i386", "amd64"]

/-- The fixed needs-emulation compatibility table of spec §4.5 / §8, one
row per supported architecture against the host architecture: the rows
spelt out there are armhf/armel/arm (unless the host is arm64 or arm),
arm64 (unless the host is arm64) and mipsel (unless the host is mips64le
or mipsle); the remaining rows of the exhaustive table are mips
(always), mips64el (unless mips64le), riscv64 (unless riscv64), i386
(unless amd64 or 386) and amd64 (unless amd64). -/
def specCompatTable (arch goarch : String) : Bool :=
  match arch with
  | "armhf" | "armel" | "arm" => goarch != "arm64" && goarch != "arm"
  | "arm64" => goarch != "arm64"
  | "mips" => true
  | "mipsel" => goarch != "mips64le" && goarch != "mipsle"
  | "mips64el" => goarch != "mips64le"
  | "riscv64" => goarch != "riscv64"
  | "i386" => goarch != "amd64" && goarch != "386"
  | "amd64" => goarch != "amd64"
  | _ => false

/-- The per-mode argument-vector shape of spec §6: mode none passes the
command line through unchanged; classic chroot emits `chroot
<chrootPath>` then the command line; nspawn emits the container tool,
the fixed flags, one `--setenv` flag per extra-environment assignment in
declared order, one `--bind` flag per bind mount in declared order, then
`-D <chrootPath>` and the command line. -/
def specOptions (cmd : Command) (cmdline : List String) : List String :=
  match cmd.ChrootMethod with
  | CHROOT_METHOD_NONE => cmdline
  | CHROOT_METHOD_CHROOT => ["chroot", cmd.Chroot] ++ cmdline
  | CHROOT_METHOD_NSPAWN =>
      ["systemd-nspawn", "-q", "--resolv-conf=off", "--timezone=off",
       "--register=no", "--keep-unit", "--console=pipe"]
      ++ (cmd.extraEnv.flatMap fun e => ["--setenv", e])
      ++ (cmd.bindMounts.flatMap fun b => ["--bind", b])
      ++ ["-D", cmd.Chroot] ++ cmdline

/-- Spec §4.4 save, rename-aside step: if a DNS configuration file
exists inside the chroot, rename it to the side-car path. -/
def specRenameAside (faults : Faults) (chrootedconf savedconf : String)
    (fs : FSmap) : Except String FSmap :=
  if (fsLookup chrootedconf fs).isSome then
    if faults.renameFails chrootedconf then Except.error "rename resolv.conf"
    else Except.ok (fsRename chrootedconf savedconf fs)
  else Except.ok fs

/-- Spec §4.4 save, host-read step: read the host's own DNS
configuration file. -/
def specReadHost (faults : Faults) (hostconf : String) (fs : FSmap) :
    Except String String :=
  if faults.readFails hostconf then Except.error "read host resolv.conf"
  else
    match fsLookup hostconf fs with
    | some (Entry.regular data) => Except.ok data
    | _ => Except.error "read host resolv.conf"

/-- Spec §4.4 save, written from the specification's words: no-op for
isolation mode none; otherwise rename any existing chroot DNS file to
the side-car path, read the host's DNS file, prepend the one-line
generated marker, remember the checksum of the result and write it into
the chroot at the original path; any failure is returned as an error
with no checksum remembered. -/
def saveResolvConfSpec (hash : String → String) (faults : Faults)
    (cmd : Command) (fs : FSmap) : SaveResult :=
  let hostconf := "/etc/resolv.conf"
  let chrootedconf := joinPath cmd.Chroot hostconf
  let savedconf := chrootedconf ++ ".debos"
  if cmd.ChrootMethod = CHROOT_METHOD_NONE then ⟨fs, none, none⟩
  else
    match specRenameAside faults chrootedconf savedconf fs with
    | Except.error e => ⟨fs, none, some e⟩
    | Except.ok fs1 =>
      match specReadHost faults hostconf fs1 with
      | Except.error e => ⟨fs1, none, some e⟩
      | Except.ok data =>
        let overlay := resolvConfMarker ++ data
        if faults.writeFails chrootedconf then ⟨fs1, none, some "write resolv.conf"⟩
        else ⟨fsSet chrootedconf (Entry.regular overlay) fs1, some (hash overlay), none⟩

/-- Spec §4.4 restore, inspection of the file now at the original path
inside the chroot (amended reading): a regular file whose checksum
matches the remembered one is deleted and the side-car, if present, is
renamed back; a regular file with a different checksum, a symbolic
link, or a missing file is left as found without a warning; anything
else is left as found with a warning. -/
def specInspect (hash : String → String) (faults : Faults)
    (chrootedconf savedconf : String) (fs : FSmap) (sum : String) : RestoreResult :=
  match fsLookup chrootedconf fs with
  | none => ⟨fs, [], none⟩
  | some (Entry.symlink _) => ⟨fs, [], none⟩
  | some Entry.other =>
      ⟨fs, ["Warning: /etc/resolv.conf inside the chroot is not a regular file"], none⟩
  | some (Entry.regular data) =>
      if faults.readFails chrootedconf then ⟨fs, [], some "read resolv.conf"⟩
      else if hash data = sum then
        if faults.removeFails chrootedconf then ⟨fs, [], some "remove resolv.conf"⟩
        else
          let fs1 := fsRemove chrootedconf fs
          if (fsLookup savedconf fs1).isSome then
            if faults.renameFails savedconf then ⟨fs1, [], some "rename savedconf"⟩
            else ⟨fsRename savedconf chrootedconf fs1, [], none⟩
          else ⟨fs1, [], none⟩
      else ⟨fs, [], none⟩

/-- Spec §4.4 restore, written from the specification's words as
amended: no-op for isolation mode none or a forgotten checksum;
otherwise inspect the file at the original path as in `specInspect`,
and on every exit attempt the side-car removal regardless of the other
outcomes. -/
def restoreResolvConfSpec (hash : String → String) (faults : Faults)
    (cmd : Command) (fs : FSmap) (sum : Option String) : RestoreResult :=
  let hostconf := "/etc/resolv.conf"
  let chrootedconf := joinPath cmd.Chroot hostconf
  let savedconf := chrootedconf ++ ".debos"
  match sum with
  | none => ⟨fs, [], none⟩
  | some s =>
    if cmd.ChrootMethod = CHROOT_METHOD_NONE then ⟨fs, [], none⟩
    else
      let body := specInspect hash faults chrootedconf savedconf fs s
      ⟨if faults.removeFails savedconf then body.fs else fsRemove savedconf body.fs,
       body.warnings, body.err⟩

/-- The environments of the spawn events of a trace, in order (used to
state what reached a spawned process). -/
def spawnedEnvs (evs : List Event) : List (List String) :=
  evs.filterMap (fun ev =>
    match ev with
    | Event.spawn _ env => some env
    | _ => none)

/-- A concrete stand-in for the abstract hash in witnesses. -/
def idHash : String → String := fun s => s

/-- A fault oracle where only the emulation-binary copy fails. -/
def failCopyFaults : Faults := { noFaults with copyFails := fun _ => true }

/-- A concrete filesystem holding only the host's resolv.conf. -/
def hostFS : FSmap := [("/etc/resolv.conf", Entry.regular "nameserver 8.8.8.8\n")]

/-- A concrete filesystem holding the host's resolv.conf and an
original resolv.conf inside the chroot at /build/root. -/
def fsWithChrootResolv : FSmap :=
  [("/etc/resolv.conf", Entry.regular "nameserver 8.8.8.8\n"),
   ("/build/root/etc/resolv.conf", Entry.regular "orig")]

/-- A world on an amd64 host where the emulation-binary copy fails and
the spawned process succeeds. -/
def worldSetupFail : World :=
  { goarch := "amd64", hostEnviron := [], hash := idHash,
    faults := failCopyFaults, execResult := none }

/-- A fault-free world on an amd64 host where the spawned process
succeeds. -/
def worldOk : World :=
  { goarch := "amd64", hostEnviron := ["PATH=/bin"], hash := idHash,
    faults := noFaults, execResult := none }

/-- A fault-free world on an amd64 host where the spawned process
fails. -/
def worldExecFail : World :=
  { goarch := "amd64", hostEnviron := [], hash := idHash,
    faults := noFaults, execResult := some "exit status 1" }

/-- A concrete nspawn command for the armhf architecture. -/
def cmdNspawnArm : Command :=
  { Architecture := "armhf", Chroot := "/build/root",
    ChrootMethod := CHROOT_METHOD_NSPAWN }

/-- A concrete classic-chroot command with a bind mount and an extra
environment assignment declared. -/
def cmdChrootEnv : Command :=
  { Chroot := "/build/root", ChrootMethod := CHROOT_METHOD_CHROOT,
    bindMounts := ["/pkg/app.deb"], extraEnv := ["FOO=bar"] }

/-- A concrete plain classic-chroot command. -/
def cmdChrootPlain : Command :=
  { Chroot := "/build/root", ChrootMethod := CHROOT_METHOD_CHROOT }

/-! Helper lemmas about the filesystem model. -/

theorem fsLookup_cons (p : String) (kv : String × Entry) (tl : FSmap) :
    fsLookup p (kv :: tl) = if kv.1 = p then some kv.2 else fsLookup p tl := by
  by_cases h : kv.1 = p <;> simp [fsLookup, List.find?, h]

theorem fsLookup_fsRemove (p q : String) (fs : FSmap) :
    fsLookup p (fsRemove q fs) = if p = q then none else fsLookup p fs := by
  induction fs with
  | nil => simp [fsLookup, fsRemove]
  | cons kv tl ih =>
    simp only [fsRemove, List.filter_cons] at ih ⊢
    by_cases hq : kv.1 = q
    · simp only [hq, bne_self_eq_false, Bool.false_eq_true, if_false]
      rw [ih, fsLookup_cons]
      by_cases hp : p = q
      · simp [hp]
      · have : ¬ kv.1 = p := by rw [hq]; exact fun h => hp h.symm
        simp [hp, this]
    · have hbne : (kv.1 != q) = true := by simpa using hq
      simp only [hbne, if_true]
      rw [fsLookup_cons, fsLookup_cons]
      by_cases hkp : kv.1 = p
      · have hp : ¬ p = q := by rw [← hkp]; exact fun h => hq h
        simp [hkp, hp]
      · simp only [hkp, if_false]
        rw [ih]

theorem fsLookup_fsSet (p q : String) (e : Entry) (fs : FSmap) :
    fsLookup p (fsSet q e fs) = if p = q then some e else fsLookup p fs := by
  unfold fsSet
  rw [fsLookup_cons, fsLookup_fsRemove]
  by_cases hp : p = q
  · simp [hp]
  · have : ¬ q = p := fun h => hp h.symm
    simp [hp, this]

/-! C4: per-mode argument-vector shape. -/

theorem foldl_append_flatMap {α β : Type} (l : List α) (f : α → List β) :
    ∀ init : List β, l.foldl (fun acc x => acc ++ f x) init = init ++ l.flatMap f := by
  induction l with
  | nil => intro init; simp
  | cons x tl ih =>
    intro init
    simp only [List.foldl_cons, List.flatMap_cons, ih, List.append_assoc]

/-- C4: for every command configuration and command line, the assembled
argument vector matches the per-mode shape of the spec: mode none passes
the command line through unchanged; classic chroot emits `chroot
<chrootPath>` then the command line; namespace container emits the
container tool, the fixed flags, one `--setenv` per extra-environment
assignment in declared order, one `--bind` per bind mount in declared
order, then `-D <chrootPath>` and the command line. -/
theorem run_assembles_spec_argument_vector (cmd : Command) (cmdline : List String) :
    assembleOptions cmd cmdline = specOptions cmd cmdline := by
  cases h : cmd.ChrootMethod <;>
    simp [assembleOptions, specOptions, h, foldl_append_flatMap, List.append_assoc]

/-! C10: empty command line in mode none panics. -/

theorem assembleOptions_none_empty (cmd : Command)
    (h : cmd.ChrootMethod = CHROOT_METHOD_NONE) :
    assembleOptions cmd [] = [] := by
  simp [assembleOptions, h]

/-- C10: with isolation mode none and an empty command line, `Run`
panics — either at the architecture switch or, after the argument
vector is assembled empty, at the unconditional `options[0]` index — and
never returns normally, so no process is spawned; a nonempty command
line is an unstated precondition of `Run`. -/
theorem run_empty_cmdline_panics (w : World) (fs : FSmap) (cmd : Command)
    (label : String) (hm : cmd.ChrootMethod = CHROOT_METHOD_NONE) :
    (Command.Run w fs cmd label []).ret = none ∧
    ∀ argv env, Event.spawn argv env ∉ (Command.Run w fs cmd label []).events := by
  unfold Command.Run
  cases hq : newQemuHelper cmd w.goarch with
  | none => simp
  | some q =>
    simp [assembleOptions_none_empty cmd hm]

/-- Witness for C10 at a concrete input: a mode-none run with an empty
command line ends in the panic outcome. -/
theorem run_empty_cmdline_panics_witness :
    (Command.Run worldOk hostFS { ChrootMethod := CHROOT_METHOD_NONE } "build" []).ret = none :=
  (run_empty_cmdline_panics worldOk hostFS { ChrootMethod := CHROOT_METHOD_NONE } "build" rfl).1

/-! C1: emulation compatibility table and the fatal default. -/

theorem qemuSrcFor_supported (arch goarch : String)
    (hmem : arch ∈ supportedArchitectures) :
    ∃ src, qemuSrcFor arch goarch = some src ∧ (src != "") = specCompatTable arch goarch := by
  simp only [supportedArchitectures, List.mem_cons, List.mem_singleton,
    List.not_mem_nil, or_false] at hmem
  rcases hmem with h | h | h | h | h | h | h | h | h | h <;> subst h <;>
    simp only [qemuSrcFor, specCompatTable] <;>
    refine ⟨_, rfl, ?_⟩ <;>
    first
      | decide
      | (split <;> simp_all)

theorem qemuSrcFor_unknown (arch goarch : String)
    (hmem : arch ∉ supportedArchitectures) :
    qemuSrcFor arch goarch = none := by
  simp only [supportedArchitectures, List.mem_cons, List.mem_singleton,
    List.not_mem_nil, or_false, not_or] at hmem
  obtain ⟨h1, h2, h3, h4, h5, h6, h7, h8, h9, h10⟩ := hmem
  simp [qemuSrcFor, h1, h2, h3, h4, h5, h6, h7, h8, h9, h10]

/-- C1: for every target architecture in the enumerated set and every
host architecture, with both the chroot path and the architecture set,
the helper is constructed and its needs-emulation decision equals the
fixed compatibility table; for every architecture outside that set,
construction reaches the `log.Panicf` fatal path (modelled as `none`),
never a silent no-op. -/
theorem qemu_needs_emulation_matches_table (c : Command) (goarch : String)
    (hchroot : c.Chroot ≠ "") (harch : c.Architecture ≠ "") :
    (c.Architecture ∈ supportedArchitectures →
      ∃ q, newQemuHelper c goarch = some q ∧
        needsEmulation q = specCompatTable c.Architecture goarch)
    ∧ (c.Architecture ∉ supportedArchitectures → newQemuHelper c goarch = none) := by
  unfold newQemuHelper
  rw [if_neg (by simp [hchroot, harch])]
  constructor
  · intro hmem
    obtain ⟨src, hsrc, htab⟩ := qemuSrcFor_supported c.Architecture goarch hmem
    rw [hsrc]
    exact ⟨_, rfl, htab⟩
  · intro hmem
    rw [qemuSrcFor_unknown c.Architecture goarch hmem]

/-- Witness for C1 at a concrete input: architecture armhf on an amd64
host with a set chroot path needs emulation exactly as the table says,
and the unsupported architecture sparc aborts. -/
theorem qemu_needs_emulation_matches_table_witness :
    (∃ q, newQemuHelper { Architecture := "armhf", Chroot := "/build/root" } "amd64" = some q ∧
        needsEmulation q = specCompatTable "armhf" "amd64")
    ∧ newQemuHelper { Architecture := "sparc", Chroot := "/build/root" } "amd64" = none := by
  constructor
  · exact (qemu_needs_emulation_matches_table
      { Architecture := "armhf", Chroot := "/build/root" } "amd64"
      (by decide) (by decide)).1 (by decide)
  · exact (qemu_needs_emulation_matches_table
      { Architecture := "sparc", Chroot := "/build/root" } "amd64"
      (by decide) (by decide)).2 (by decide)

/-! C5: the DNS save step matches the spec description. -/

/-- C5: the DNS save step equals, on every input, the step the spec
describes — a no-op for isolation mode none; otherwise any existing
chroot resolv.conf is renamed to the side-car path, the host's
resolv.conf is read, the generated-marker line is prepended, the
checksum of the result is remembered and the result is written to the
chroot path, with any rename/read/write failure returned as an error
and no checksum remembered. -/
theorem save_tail_matches (hash : String → String) (faults : Faults)
    (cc : String) (fs1 : FSmap) :
    (if faults.readFails "/etc/resolv.conf" = true then
       ({ fs := fs1, sum := none, err := some "read host resolv.conf" } : SaveResult)
     else
       match fsLookup "/etc/resolv.conf" fs1 with
       | some (Entry.regular data) =>
         if faults.writeFails cc = true then
           { fs := fs1, sum := none, err := some "write resolv.conf" }
         else
           { fs := fsSet cc (Entry.regular (resolvConfMarker ++ data)) fs1,
             sum := some (hash (resolvConfMarker ++ data)), err := none }
       | _ => { fs := fs1, sum := none, err := some "read host resolv.conf" })
    =
    match specReadHost faults "/etc/resolv.conf" fs1 with
    | Except.error e => { fs := fs1, sum := none, err := some e }
    | Except.ok data =>
      if faults.writeFails cc = true then
        { fs := fs1, sum := none, err := some "write resolv.conf" }
      else
        { fs := fsSet cc (Entry.regular (resolvConfMarker ++ data)) fs1,
          sum := some (hash (resolvConfMarker ++ data)), err := none } := by
  unfold specReadHost
  by_cases hrd : faults.readFails "/etc/resolv.conf" = true
  · simp [hrd]
  · simp only [hrd, if_false, reduceIte]
    cases hl : fsLookup "/etc/resolv.conf" fs1 with
    | none => rfl
    | some e => cases e <;> rfl

/-- C5: the DNS save step equals, on every input, the step the spec
describes — a no-op for isolation mode none; otherwise any existing
chroot resolv.conf is renamed to the side-car path, the host's
resolv.conf is read, the generated-marker line is prepended, the
checksum of the result is remembered and the result is written to the
chroot path, with any rename/read/write failure returned as an error
and no checksum remembered. -/
theorem save_resolv_conf_matches_spec (hash : String → String) (faults : Faults)
    (cmd : Command) (fs : FSmap) :
    saveResolvConf hash faults cmd fs = saveResolvConfSpec hash faults cmd fs := by
  unfold saveResolvConf saveResolvConfSpec specRenameAside
  by_cases hm : cmd.ChrootMethod = CHROOT_METHOD_NONE
  · simp [hm]
  · simp only [hm, if_false, reduceIte]
    split
    · rfl
    · exact save_tail_matches hash faults _ _

/-! C6: the DNS restore step. -/

/-- Counterexample to C6 as stated: with isolation mode
namespace-container, a remembered checksum and no file at the chroot's
resolv.conf path (the command deleted it), the restore step surfaces no
warning at all — it returns silently with no error and only the
side-car removal applied — whereas the claim says a warning is surfaced
for a missing file. -/
theorem restore_missing_file_no_warning :
    (restoreResolvConf (fun s => s) noFaults
      { Chroot := "/build/root", ChrootMethod := CHROOT_METHOD_NSPAWN }
      [("/build/root/etc/resolv.conf.debos", Entry.regular "orig")]
      (some "d")).warnings = [] := by
  decide

/-- C6 (amended): the DNS restore step equals, on every input, the
amended description — a no-op when isolation mode is none or no
checksum was remembered; otherwise the side-car removal is attempted on
every exit, a regular file with the remembered checksum is deleted and
the side-car, if present, renamed back, a regular file with a different
checksum or a symbolic link is left untouched, a missing file is left
as found silently, and only a file that is neither regular nor a
symlink surfaces a warning. -/
theorem restore_resolv_conf_matches_spec (hash : String → String) (faults : Faults)
    (cmd : Command) (fs : FSmap) (sum : Option String) :
    restoreResolvConf hash faults cmd fs sum = restoreResolvConfSpec hash faults cmd fs sum := by
  unfold restoreResolvConf restoreResolvConfSpec specInspect
  cases sum with
  | none => simp
  | some s =>
    by_cases hm : cmd.ChrootMethod = CHROOT_METHOD_NONE
    · simp [hm]
    · simp only [hm, false_or, or_false, reduceCtorEq, if_false, reduceIte]
      cases hl : fsLookup (joinPath cmd.Chroot "/etc/resolv.conf") fs with
      | none => rfl
      | some e =>
        cases e with
        | regular data =>
          simp only [Option.some.injEq]
        | symlink t => rfl
        | other => rfl

/-! C9: output capture framing. -/

theorem readStringNL_eq_append {l s rest : List Char}
    (h : readStringNL l = some (s, rest)) : s ++ rest = l := by
  induction l generalizing s rest with
  | nil => simp [readStringNL] at h
  | cons c tl ih =>
    simp only [readStringNL] at h
    by_cases hc : c = '\n'
    · simp [hc] at h
      obtain ⟨hs, hr⟩ := h
      subst hs
      subst hr
      simp [hc]
    · simp only [if_neg hc] at h
      cases hr : readStringNL tl with
      | none => rw [hr] at h; exact absurd h (by simp)
      | some pr =>
        obtain ⟨s', rest'⟩ := pr
        rw [hr] at h
        simp only [Option.some.injEq, Prod.mk.injEq] at h
        obtain ⟨hs, hrest⟩ := h
        subst hs
        subst hrest
        simpa using ih hr

theorem readStringNL_ends_newline {l s rest : List Char}
    (h : readStringNL l = some (s, rest)) : ∃ s0, s = s0 ++ ['\n'] := by
  induction l generalizing s rest with
  | nil => simp [readStringNL] at h
  | cons c tl ih =>
    simp only [readStringNL] at h
    by_cases hc : c = '\n'
    · simp [hc] at h
      obtain ⟨hs, _⟩ := h
      exact ⟨[], by simp [hs, hc]⟩
    · simp only [if_neg hc] at h
      cases hr : readStringNL tl with
      | none => rw [hr] at h; exact absurd h (by simp)
      | some pr =>
        obtain ⟨s', rest'⟩ := pr
        rw [hr] at h
        simp only [Option.some.injEq, Prod.mk.injEq] at h
        obtain ⟨hs, _⟩ := h
        obtain ⟨s0, hs0⟩ := ih hr
        exact ⟨c :: s0, by simp [← hs, hs0]⟩

theorem readStringNL_none_no_newline {l : List Char}
    (h : readStringNL l = none) : l.contains '\n' = false := by
  induction l with
  | nil => simp
  | cons c tl ih =>
    simp only [readStringNL] at h
    by_cases hc : c = '\n'
    · simp [hc] at h
    · cases hr : readStringNL tl with
      | some pr => rw [hr] at h; simp [if_neg hc] at h
      | none =>
        have htl := ih hr
        simp only [List.contains_cons, htl, Bool.or_false]
        simpa using fun hcc => hc hcc.symm

theorem outLoop_false_inv : ∀ (n : Nat) (buf : List Char), buf.length ≤ n →
    (outLoop false buf).2.flatten ++ (outLoop false buf).1 = buf
    ∧ (outLoop false buf).2.all (fun s => s.getLast? == some '\n') = true
    ∧ (outLoop false buf).1.contains '\n' = false := by
  intro n
  induction n with
  | zero =>
    intro buf hlen
    have hb : buf = [] := List.eq_nil_of_length_eq_zero (Nat.le_zero.mp hlen)
    subst hb
    rw [outLoop.eq_def]
    simp [readStringNL]
  | succ n ih =>
    intro buf hlen
    rw [outLoop.eq_def]
    cases hr : readStringNL buf with
    | some pr =>
      obtain ⟨s, rest⟩ := pr
      have hlt := readStringNL_length hr
      obtain ⟨h1, h2, h3⟩ := ih rest (by omega)
      have happ := readStringNL_eq_append hr
      obtain ⟨s0, hs0⟩ := readStringNL_ends_newline hr
      simp only [hr]
      refine ⟨?_, ?_, ?_⟩
      · simp only [List.flatten_cons, List.append_assoc, h1, happ]
      · simp only [List.all_cons, h2, Bool.and_true]
        simp [hs0]
      · exact h3
    | none =>
      simp only [hr]
      by_cases hb : 0 < buf.length
      · simp only [hb, if_true, if_false, reduceIte]
        exact ⟨by simp, by simp, readStringNL_none_no_newline hr⟩
      · have : buf = [] := by
          cases buf with
          | nil => rfl
          | cons c tl => simp at hb
        subst this
        simp

theorem outLoop_true_eq : ∀ (n : Nat) (buf : List Char), buf.length ≤ n →
    outLoop true buf
      = ([], (outLoop false buf).2
            ++ (if (outLoop false buf).1 = [] then []
                else [(outLoop false buf).1 ++ ['\n']])) := by
  intro n
  induction n with
  | zero =>
    intro buf hlen
    have hb : buf = [] := List.eq_nil_of_length_eq_zero (Nat.le_zero.mp hlen)
    subst hb
    rw [outLoop.eq_def, outLoop.eq_def]
    simp [readStringNL]
  | succ n ih =>
    intro buf hlen
    rw [outLoop.eq_def]
    conv_rhs => rw [outLoop.eq_def]
    cases hr : readStringNL buf with
    | some pr =>
      obtain ⟨s, rest⟩ := pr
      have hlt := readStringNL_length hr
      have h1 := ih rest (by omega)
      simp only [hr, h1]
      simp
    | none =>
      simp only [hr]
      by_cases hb : 0 < buf.length
      · have hne : ¬ buf = [] := by
          cases buf with
          | nil => simp at hb
          | cons c tl => simp
        simp [hb, hne]
      · have : buf = [] := by
          cases buf with
          | nil => rfl
          | cons c tl => simp at hb
        subst this
        simp

theorem outLoop_write_concrete :
    outLoop false ('a' :: '\n' :: 'b' :: []) = (['b'], [['a', '\n']]) := by
  rw [outLoop.eq_def]
  rw [show readStringNL ('a' :: '\n' :: 'b' :: []) = some (['a', '\n'], ['b']) from by decide]
  simp only []
  rw [outLoop.eq_def]
  rw [show readStringNL ['b'] = (none : Option (List Char × List Char)) from by decide]
  simp

theorem outLoop_flush_concrete :
    outLoop true ['b'] = ([], [['b', '\n']]) := by
  rw [outLoop.eq_def]
  rw [show readStringNL ['b'] = (none : Option (List Char × List Char)) from by decide]
  simp

/-- C9: the output capture emits one labeled log line per
newline-terminated segment of the merged byte stream (the emitted
segments joined with the retained partial reconstruct the buffered
input, every emitted segment is newline-terminated, and the retained
partial is newline-less), the partial is retained in the buffer across
writes, end-of-stream emits the retained partial with a forced trailing
newline and empties the buffer; and for the input bytes "a\nb" followed
by the end-of-stream signal, exactly the two labeled lines "a" then "b"
are emitted, in that order. -/
theorem output_capture_framing :
    (∀ buf : List Char,
      (outLoop false buf).2.flatten ++ (outLoop false buf).1 = buf
      ∧ (outLoop false buf).2.all (fun s => s.getLast? == some '\n') = true
      ∧ (outLoop false buf).1.contains '\n' = false)
    ∧ (∀ buf : List Char,
      outLoop true buf
        = ([], (outLoop false buf).2
              ++ (if (outLoop false buf).1 = [] then []
                  else [(outLoop false buf).1 ++ ['\n']])))
    ∧ ((wrapperWrite [] ('a' :: '\n' :: 'b' :: [])).2
        ++ (wrapperFlush (wrapperWrite [] ('a' :: '\n' :: 'b' :: [])).1).2).map (logLine "log")
      = [logLine "log" ['a', '\n'], logLine "log" ['b', '\n']] := by
  refine ⟨fun buf => outLoop_false_inv buf.length buf (Nat.le_refl _),
          fun buf => outLoop_true_eq buf.length buf (Nat.le_refl _), ?_⟩
  simp only [wrapperWrite, wrapperFlush, List.nil_append,
    outLoop_write_concrete, outLoop_flush_concrete]
  simp

/-! Helper lemmas for the Run-level claims. -/

theorem string_ne_append_debos (s : String) : ¬ s = s ++ ".debos" := by
  intro h
  have hlen := congrArg String.length h
  rw [String.length_append] at hlen
  have h6 : ".debos".length = 6 := by decide
  omega

theorem assembleOptions_ne_nil (cmd : Command) (cmdline : List String)
    (hm : cmd.ChrootMethod ≠ CHROOT_METHOD_NONE) :
    assembleOptions cmd cmdline ≠ [] := by
  cases h : cmd.ChrootMethod with
  | CHROOT_METHOD_NONE => exact absurd h hm
  | CHROOT_METHOD_NSPAWN => simp [assembleOptions, h, foldl_append_flatMap]
  | CHROOT_METHOD_CHROOT => simp [assembleOptions, h]

theorem fsLookup_qemuCleanup (p : String) (q : qemuHelper) (faults : Faults)
    (fs : FSmap) (hp : p ≠ q.qemutarget) :
    fsLookup p (qemuCleanup q faults fs) = fsLookup p fs := by
  unfold qemuCleanup
  split
  · rfl
  · split
    · rfl
    · rw [fsLookup_fsRemove]
      simp [hp]

theorem saveResolvConf_success (hash : String → String) (faults : Faults)
    (cmd : Command) (fs : FSmap)
    (hm : cmd.ChrootMethod ≠ CHROOT_METHOD_NONE)
    (hok : (saveResolvConf hash faults cmd fs).err = none) :
    (∃ data,
      fsLookup (joinPath cmd.Chroot "/etc/resolv.conf") (saveResolvConf hash faults cmd fs).fs
        = some (Entry.regular (resolvConfMarker ++ data))
      ∧ (saveResolvConf hash faults cmd fs).sum = some (hash (resolvConfMarker ++ data)))
    ∧ ((fsLookup (joinPath cmd.Chroot "/etc/resolv.conf") fs).isSome →
        fsLookup (joinPath cmd.Chroot "/etc/resolv.conf" ++ ".debos")
            (saveResolvConf hash faults cmd fs).fs
          = fsLookup (joinPath cmd.Chroot "/etc/resolv.conf") fs) := by
  have hne := string_ne_append_debos (joinPath cmd.Chroot "/etc/resolv.conf")
  unfold saveResolvConf at hok ⊢
  simp only [hm, if_false, reduceIte] at hok ⊢
  by_cases hex : (fsLookup (joinPath cmd.Chroot "/etc/resolv.conf") fs).isSome
  · simp only [hex, if_true] at hok ⊢
    by_cases hrn : faults.renameFails (joinPath cmd.Chroot "/etc/resolv.conf") = true
    · simp [hrn] at hok
    · simp only [hrn, Bool.false_eq_true, if_false, reduceIte] at hok ⊢
      by_cases hrd : faults.readFails "/etc/resolv.conf" = true
      · simp [hrd] at hok
      · simp only [hrd, Bool.false_eq_true, if_false, reduceIte] at hok ⊢
        cases hl : fsLookup "/etc/resolv.conf"
            (fsRename (joinPath cmd.Chroot "/etc/resolv.conf")
              (joinPath cmd.Chroot "/etc/resolv.conf" ++ ".debos") fs) with
        | none => simp [hl] at hok
        | some ent =>
          cases ent with
          | regular data =>
            simp only [hl] at hok ⊢
            by_cases hwr : faults.writeFails (joinPath cmd.Chroot "/etc/resolv.conf") = true
            · simp [hwr] at hok
            · simp only [hwr, Bool.false_eq_true, if_false, reduceIte]
              constructor
              · refine ⟨data, ?_, rfl⟩
                rw [fsLookup_fsSet]
                simp
              · intro _
                rw [fsLookup_fsSet]
                rw [if_neg (fun hcontra => hne hcontra.symm)]
                obtain ⟨entc, hentc⟩ := Option.isSome_iff_exists.mp hex
                unfold fsRename
                rw [hentc]
                rw [fsLookup_fsSet]
                simp [hentc]
          | symlink t => simp [hl] at hok
          | other => simp [hl] at hok
  · simp only [hex, Bool.false_eq_true, if_false, reduceIte] at hok ⊢
    by_cases hrd : faults.readFails "/etc/resolv.conf" = true
    · simp [hrd] at hok
    · simp only [hrd, Bool.false_eq_true, if_false, reduceIte] at hok ⊢
      cases hl : fsLookup "/etc/resolv.conf" fs with
      | none => simp [hl] at hok
      | some ent =>
        cases ent with
        | regular data =>
          simp only [hl] at hok ⊢
          by_cases hwr : faults.writeFails (joinPath cmd.Chroot "/etc/resolv.conf") = true
          · simp [hwr] at hok
          · simp only [hwr, Bool.false_eq_true, if_false, reduceIte]
            refine ⟨⟨data, ?_, rfl⟩, ?_⟩
            · rw [fsLookup_fsSet]
              simp
            · exact fun hcontra => False.elim hcontra
        | symlink t => simp [hl] at hok
        | other => simp [hl] at hok

/-! C8: guaranteed teardown on every exit path past guard arming. -/

/-- C8: on every exit path of `Run` that reaches the point where each
guard is armed (the helper was constructed and the argument vector is
nonempty, so the panic paths are excluded) — including the early return
from a DNS-save failure and execution failures — the output flush runs,
the injected emulation binary's removal runs, and, whenever the service
gate was disabled (isolation mode other than none), its re-enable runs. -/
theorem run_guaranteed_teardown (w : World) (fs : FSmap) (cmd : Command)
    (label : String) (cmdline : List String) (q : qemuHelper)
    (hq : newQemuHelper cmd w.goarch = some q)
    (hopt : assembleOptions cmd cmdline ≠ []) :
    Event.flushOutput ∈ (Command.Run w fs cmd label cmdline).events
    ∧ Event.qemuCleanup q.qemutarget ∈ (Command.Run w fs cmd label cmdline).events
    ∧ (cmd.ChrootMethod ≠ CHROOT_METHOD_NONE →
        Event.allowServices cmd.Chroot ∈ (Command.Run w fs cmd label cmdline).events) := by
  unfold Command.Run
  rw [hq]
  simp only [if_neg hopt]
  by_cases hm : cmd.ChrootMethod = CHROOT_METHOD_NONE <;>
    split <;> cases hex : w.execResult <;> simp_all

/-- Witness for C8 at a concrete input: the flush event is in the trace
of a concrete classic-chroot run. -/
theorem run_guaranteed_teardown_witness :
    Event.flushOutput ∈ (Command.Run worldOk hostFS cmdChrootEnv "build" ["ls"]).events :=
  (run_guaranteed_teardown worldOk hostFS cmdChrootEnv "build" ["ls"] {}
    (by decide) (by decide)).1

/-! C7: a failing execution skips DNS restoration. -/

/-- C7: when isolation mode is not none, the save step succeeded and the
spawned process fails, `Run` returns the execution error, the
host-derived overlay is still the chroot's resolv.conf, and whenever an
original resolv.conf existed it still sits, unchanged, at the side-car
path — no restoration is attempted.  The two inequations keep the
emulation binary's teardown path distinct from the two DNS paths. -/
theorem run_exec_failure_skips_restore (w : World) (fs : FSmap) (cmd : Command)
    (label : String) (cmdline : List String) (q : qemuHelper) (e : String)
    (hq : newQemuHelper cmd w.goarch = some q)
    (hm : cmd.ChrootMethod ≠ CHROOT_METHOD_NONE)
    (hexec : w.execResult = some e)
    (hsv : (saveResolvConf w.hash w.faults cmd (qemuSetup q w.faults fs).1).err = none)
    (hcc : q.qemutarget ≠ joinPath cmd.Chroot "/etc/resolv.conf")
    (hsc : q.qemutarget ≠ joinPath cmd.Chroot "/etc/resolv.conf" ++ ".debos") :
    (Command.Run w fs cmd label cmdline).ret = some (some e)
    ∧ (∃ data,
        fsLookup (joinPath cmd.Chroot "/etc/resolv.conf")
            (Command.Run w fs cmd label cmdline).fs
          = some (Entry.regular (resolvConfMarker ++ data)))
    ∧ ((fsLookup (joinPath cmd.Chroot "/etc/resolv.conf") (qemuSetup q w.faults fs).1).isSome →
        fsLookup (joinPath cmd.Chroot "/etc/resolv.conf" ++ ".debos")
            (Command.Run w fs cmd label cmdline).fs
          = fsLookup (joinPath cmd.Chroot "/etc/resolv.conf") (qemuSetup q w.faults fs).1) := by
  obtain ⟨⟨data, hover, _⟩, hside⟩ :=
    saveResolvConf_success w.hash w.faults cmd (qemuSetup q w.faults fs).1 hm hsv
  unfold Command.Run
  rw [hq]
  simp only [if_neg (assembleOptions_ne_nil cmd cmdline hm)]
  simp only [hsv, hexec]
  refine ⟨by simp, ⟨data, ?_⟩, fun hex => ?_⟩
  · rw [fsLookup_qemuCleanup _ _ _ _ (fun hcontra => hcc hcontra.symm)]
    exact hover
  · rw [fsLookup_qemuCleanup _ _ _ _ (fun hcontra => hsc hcontra.symm)]
    exact hside hex

/-- Witness for C7 at a concrete input: a classic-chroot run whose
process exits with failure returns that failure. -/
theorem run_exec_failure_skips_restore_witness :
    (Command.Run worldExecFail fsWithChrootResolv cmdChrootPlain "build" ["make"]).ret
      = some (some "exit status 1") :=
  (run_exec_failure_skips_restore worldExecFail fsWithChrootResolv cmdChrootPlain
    "build" ["make"] {} "exit status 1" (by decide) (by decide) rfl
    (by decide) (by decide) (by decide)).1

/-! C3: classic-chroot mode and the declared bind mounts / extra
environment variables. -/

/-- Counterexample to C3 as stated: in classic-chroot isolation mode an
extra environment assignment does affect the spawned process — it is
appended to the process environment handed to the spawn (line
`exe.Env = append(os.Environ(), cmd.extraEnv...)` runs for every
non-nspawn method), so it is false that Run applies neither bind mounts
nor extra environment assignments in any way. -/
theorem run_chroot_mode_extra_env_reaches_process :
    spawnedEnvs (Command.Run worldOk hostFS cmdChrootEnv "build" ["ls"]).events
      = [["PATH=/bin", "FOO=bar"]] := by
  decide

/-- C3 (amended): in classic-chroot isolation mode the assembled
argument vector is exactly `chroot <chrootPath> <command...>` — the
declared bind mounts and extra environment assignments never appear in
it, and the bind mounts affect nothing else either — but the extra
environment assignments, when any are declared, are applied to the
spawned process by appending them to the inherited host environment. -/
theorem run_chroot_mode_ignores_binds_env_in_argv (w : World) (fs : FSmap)
    (cmd : Command) (label : String) (cmdline : List String) (q : qemuHelper)
    (hq : newQemuHelper cmd w.goarch = some q)
    (hm : cmd.ChrootMethod = CHROOT_METHOD_CHROOT)
    (hsv : (saveResolvConf w.hash w.faults cmd (qemuSetup q w.faults fs).1).err = none) :
    assembleOptions cmd cmdline = ["chroot", cmd.Chroot] ++ cmdline
    ∧ Event.spawn (["chroot", cmd.Chroot] ++ cmdline)
        (if cmd.extraEnv = [] then [] else w.hostEnviron ++ cmd.extraEnv)
        ∈ (Command.Run w fs cmd label cmdline).events := by
  have hm' : cmd.ChrootMethod ≠ CHROOT_METHOD_NONE := by rw [hm]; exact fun h => nomatch h
  have hopts : assembleOptions cmd cmdline = ["chroot", cmd.Chroot] ++ cmdline := by
    simp [assembleOptions, hm]
  refine ⟨hopts, ?_⟩
  unfold Command.Run
  rw [hq]
  simp only [if_neg (assembleOptions_ne_nil cmd cmdline hm')]
  simp only [hsv, hopts, hm]
  by_cases he : cmd.extraEnv = [] <;>
    cases hex : w.execResult <;>
    simp_all

/-- Witness for C3's amended claim at a concrete input: the spawn event
of a classic-chroot run with one bind mount and one extra assignment
carries the chroot-shaped argument vector and the extended process
environment. -/
theorem run_chroot_mode_ignores_binds_env_in_argv_witness :
    Event.spawn (["chroot", cmdChrootEnv.Chroot] ++ ["ls"])
        (if cmdChrootEnv.extraEnv = [] then [] else worldOk.hostEnviron ++ cmdChrootEnv.extraEnv)
        ∈ (Command.Run worldOk hostFS cmdChrootEnv "build" ["ls"]).events :=
  (run_chroot_mode_ignores_binds_env_in_argv worldOk hostFS cmdChrootEnv "build" ["ls"] {}
    (by decide) rfl (by decide)).2

/-! C2: the Run call discards the emulation setup error. -/

/-- C2 is a code bug: on this failing input the emulation-binary copy
fails (`qemuSetup` returns an error), yet `Run` — whose source calls
`q.Setup()` without checking its result — neither aborts nor returns
that error: it spawns the process and returns nil. -/
theorem run_ignores_qemu_setup_error :
    (qemuSetup { qemusrc := "/usr/bin/qemu-arm-static",
                 qemutarget := "/build/root/usr/bin/qemu-arm-static" }
        failCopyFaults hostFS).2 = some "copy failed"
    ∧ newQemuHelper cmdNspawnArm worldSetupFail.goarch
        = some { qemusrc := "/usr/bin/qemu-arm-static",
                 qemutarget := "/build/root/usr/bin/qemu-arm-static" }
    ∧ (Command.Run worldSetupFail hostFS cmdNspawnArm "build" ["ls"]).ret = some none
    ∧ spawnedEnvs (Command.Run worldSetupFail hostFS cmdNspawnArm "build" ["ls"]).events
        = [[]] := by
  decide

end Debos
